import Mathlib

/-!
Verification of the sqlfx mysql2 client slice: statement compiler, dialect
configuration, connection execution modes, pool lease discipline and the
streaming executor control protocol.

The dialect configuration (`makeCompiler`), the shared `run` primitive with
its four execution modes, and the `acquireConn` / `queryStream` wiring are
embedded from `packages/mysql2/examples/stream.ts` (the mysql2 client
module).  The generic `Statement` compiler, the `Transform` casing helpers,
the `Client.defaultTransforms` row transform and the `asyncPauseResume`
stream primitive live in packages that are not part of the provided
sources; those are modelled from the specification, and each such
definition is marked `Modelled from the spec:` in its doc comment.
-/

namespace SqlFx

/-- Primitive values a parameter can carry (spec §3: null, bool, number,
string, binary, date). -/
inductive Primitive where
  | null
  | boolean (b : Bool)
  | number (n : Int)
  | string (s : String)
  | binary (bytes : List Nat)
  | date (millis : Nat)
deriving DecidableEq, Repr

/-- Modelled from the spec: the builder-time error raised when the
list-expansion helper `Helper(in, values)` is applied to zero values
(spec §4.1 and §7, `EmptyInError`). -/
inductive EmptyInError where
  | emptyIn
deriving DecidableEq, Repr

/-- One chunk of compiled query text: either literal text or the i-th
placeholder (1-based position, rendered through the dialect's placeholder
generator). -/
inductive Token where
  | text (s : String)
  | placeholder (position : Nat)
deriving DecidableEq, Repr

/-- Modelled from the spec: DialectConfig (spec §3) — a position-based
placeholder generator, an identifier-escaping function, an array-literal
renderer and a default-value renderer, each a pure function.  The two
renderers return a text/parameter contribution, mirroring the
`() => ["", []]` shape at `stream.ts:251-252`. -/
structure Dialect where
  onPlaceholder : Nat → String
  onIdentifier : String → String
  onArrayLiteral : List Primitive → String × List Primitive
  onDefault : Unit → String × List Primitive

/-- The backquote character used by the MySQL identifier escape
(`Statement.defaultEscape("\x60")` at `stream.ts:106`). -/
def backquote : Char := Char.ofNat 96

/-- Doubles every occurrence of the quote character in an identifier body. -/
def escapeChars (c : Char) : List Char → List Char
  | [] => []
  | x :: xs => if x = c then c :: c :: escapeChars c xs else x :: escapeChars c xs

/-- Modelled from the spec: `Statement.defaultEscape` — wrap an identifier
in the dialect quote character, doubling embedded quotes. -/
def defaultEscape (c : Char) (s : String) : String :=
  String.mk (c :: (escapeChars c s.data ++ [c]))

/-- Embeds `const escape = Statement.defaultEscape("\x60")`
(`stream.ts:106`). -/
def escape : String → String := defaultEscape backquote

/-- Embeds `makeCompiler` (`stream.ts:247-253`): the MySQL dialect uses `?`
for every placeholder position, backquote escaping composed with the
optional query-name transform, and array-literal / default-value renderers
that both return the empty string with no parameters. -/
def makeCompiler (t : Option (String → String)) : Dialect where
  onPlaceholder := fun _ => "?"
  onIdentifier :=
    match t with
    | some f => fun s => escape (f s)
    | none => escape
  onArrayLiteral := fun _ => ("", [])
  onDefault := fun _ => ("", [])

/-- Modelled from the spec: the Fragment AST (spec §3) — literal text,
parameter, identifier, fragment list with separator, nested statement, the
`Helper(in, values)` list-expansion helper, and the two fragments rendered
through the dialect's array-literal / default-value renderers.  A
Statement is an ordered sequence of Fragments. -/
inductive Fragment where
  | literal (text : String)
  | parameter (value : Primitive)
  | identifier (name : String)
  | fragmentList (frs : List Fragment) (sep : String)
  | nested (stmt : List Fragment)
  | helperIn (values : List Primitive)
  | arrayLiteral (values : List Primitive)
  | defaultValue
deriving Repr

/-- Propagation of the builder-time error: continue with the compiled
chunk on success, short-circuit on `EmptyInError`. -/
def sqlBind {α β : Type} (x : Except EmptyInError α)
    (f : α → Except EmptyInError β) : Except EmptyInError β :=
  match x with
  | .error e => .error e
  | .ok a => f a

/-- Tail of an IN-group: `, ?` pairs, placeholders numbered from n+2. -/
def inTail (n : Nat) : Nat → List Token
  | 0 => []
  | k + 1 => Token.text ", " :: Token.placeholder (n + 1) :: inTail (n + 1) k

/-- Placeholders n+1 .. n+count of an IN-group, comma-separated. -/
def inGroup (n : Nat) : Nat → List Token
  | 0 => []
  | k + 1 => Token.placeholder (n + 1) :: inTail (n + 1) k

mutual

/-- Modelled from the spec: one step of the compiler's depth-first
traversal (spec §4.2), carrying the running placeholder counter `n`
(placeholders already emitted to the left).  `literal` appends text
verbatim; `parameter` emits the next placeholder and appends its value;
`identifier` applies the dialect escaping; `helperIn` expands to one
parenthesized comma-separated group of placeholders (zero values is an
`EmptyInError`); the renderer fragments splice the dialect renderer's
text/parameter contribution. -/
def compileFragment (d : Dialect) : Fragment → Nat → Except EmptyInError (List Token × List Primitive)
  | .literal s, _ => .ok ([.text s], [])
  | .parameter v, n => .ok ([.placeholder (n + 1)], [v])
  | .identifier name, _ => .ok ([.text (d.onIdentifier name)], [])
  | .fragmentList frs sep, n => compileJoined d frs sep n
  | .nested s, n => compileFrags d s n
  | .helperIn [], _ => .error .emptyIn
  | .helperIn (v :: rest), n =>
    .ok (Token.text "(" :: (inGroup n (v :: rest).length ++ [Token.text ")"]), v :: rest)
  | .arrayLiteral vs, _ => .ok ([.text (d.onArrayLiteral vs).1], (d.onArrayLiteral vs).2)
  | .defaultValue, _ => .ok ([.text (d.onDefault ()).1], (d.onDefault ()).2)

/-- Modelled from the spec: sequential compilation of a Statement's
fragments, threading the placeholder counter by the number of parameters
each fragment contributed (spec §4.2: nested compilation extends the
parameter sequence with no counter reset). -/
def compileFrags (d : Dialect) : List Fragment → Nat → Except EmptyInError (List Token × List Primitive)
  | [], _ => .ok ([], [])
  | f :: fs, n =>
    sqlBind (compileFragment d f n) fun tp =>
      sqlBind (compileFrags d fs (n + tp.2.length)) fun tp2 =>
        .ok (tp.1 ++ tp2.1, tp.2 ++ tp2.2)

/-- Modelled from the spec: compilation of a `List` fragment — each member
is compiled and the results are joined with the separator (spec §4.2). -/
def compileJoined (d : Dialect) : List Fragment → String → Nat → Except EmptyInError (List Token × List Primitive)
  | [], _, _ => .ok ([], [])
  | [f], _, n => compileFragment d f n
  | f :: g :: gs, sep, n =>
    sqlBind (compileFragment d f n) fun tp =>
      sqlBind (compileJoined d (g :: gs) sep (n + tp.2.length)) fun tp2 =>
        .ok (tp.1 ++ (Token.text sep :: tp2.1), tp.2 ++ tp2.2)

end

/-- Text of one token under a dialect. -/
def tokenText (d : Dialect) : Token → String
  | .text s => s
  | .placeholder i => d.onPlaceholder i

/-- Concatenated text of a token sequence. -/
def renderTokens (d : Dialect) (ts : List Token) : String :=
  ts.foldr (fun t acc => tokenText d t ++ acc) ""

/-- Modelled from the spec: `compile(Statement, DialectConfig) →
CompiledQuery` (spec §4.2) — the rendered text together with the ordered
parameter sequence, or the builder-time `EmptyInError`. -/
def compile (d : Dialect) (s : List Fragment) : Except EmptyInError (String × List Primitive) :=
  sqlBind (compileFrags d s 0) fun tp => .ok (renderTokens d tp.1, tp.2)

/-- The 1-based positions of the placeholder tokens, left to right. -/
def placeholderIndices (ts : List Token) : List Nat :=
  ts.filterMap fun t =>
    match t with
    | .placeholder i => some i
    | .text _ => none

/-- Comma-style join of a list of strings with a separator. -/
def joinSep (sep : String) : List String → String
  | [] => ""
  | x :: xs =>
    match xs with
    | [] => x
    | _ :: _ => x ++ sep ++ joinSep sep xs

/-! ### Name transforms (spec §4.3, `transform.camelToSnake` /
`transform.snakeToCamel` wired in the example at `stream.ts:25-26`) -/

/-- Character-level camel-to-snake step: every uppercase letter becomes an
underscore followed by its lowercase form. -/
def camelToSnakeChars : List Char → List Char
  | [] => []
  | c :: cs =>
    if c.isUpper then '_' :: c.toLower :: camelToSnakeChars cs
    else c :: camelToSnakeChars cs

/-- Modelled from the spec: `transform.camelToSnake` — the camel-to-snake
query-name transform (spec §4.3, §8). -/
def camelToSnake (s : String) : String :=
  String.mk (camelToSnakeChars s.data)

/-- Character-level snake-to-camel step: an underscore followed by a
character becomes that character uppercased. -/
def snakeToCamelChars : List Char → List Char
  | [] => []
  | '_' :: c :: cs => c.toUpper :: snakeToCamelChars cs
  | c :: cs => c :: snakeToCamelChars cs

/-- Modelled from the spec: `transform.snakeToCamel` — the snake-to-camel
result-name transform (spec §4.3, §8). -/
def snakeToCamel (s : String) : String :=
  String.mk (snakeToCamelChars s.data)

/-! ### Result rows and the connection run primitive
(`ConnectionImpl` at `stream.ts:122-187`) -/

/-- A result row: an ordered association of column names to values. -/
def Row : Type := List (String × Primitive)

/-- Modelled from the spec: the result-name transform applied to one row —
it renames every key and leaves every value untouched (spec §4.3). -/
def transformRow (f : String → String) (r : Row) : Row :=
  r.map fun kv => (f kv.1, kv.2)

/-- Modelled from the spec: `Client.defaultTransforms(...).array`
(`stream.ts:118-120`) — the result-name transform applied to each row of a
result set, preserving row order. -/
def transformRows (f : String → String) (rs : List Row) : List Row :=
  rs.map (transformRow f)

/-- A driver-level failure as surfaced by the mysql2 driver: a message and
an opaque error payload. -/
structure DriverError where
  message : String
  code : Nat
deriving DecidableEq, Repr

/-- The typed query failure (`SqlError` from `@sqlfx/sql/Error`, the spec's
`QueryError`): carries the driver's original message and the original
error as cause, as built by `SqlError((error as any).message, error)` at
`stream.ts:138`. -/
structure SqlError where
  message : String
  cause : DriverError
deriving DecidableEq, Repr

/-- The outcome of one underlying driver call: either the fetched rows or
a driver-level error. -/
def DriverOutcome : Type := Except DriverError (List Row)

/-- Embeds the private `run` primitive (`stream.ts:125-150`): the driver
outcome is caught and re-signaled as a typed `SqlError` carrying the
original message and cause; on success, the result-name transform is
applied only when `transform` is set, `rowsAsArray` is not set and a
transform is configured. -/
def run (transformResultNames : Option (String → String))
    (transform rowsAsArray : Bool) (outcome : DriverOutcome) :
    Except SqlError (List Row) :=
  match outcome with
  | .error e => .error { message := e.message, cause := e }
  | .ok rows =>
    if transform && !rowsAsArray then
      match transformResultNames with
      | some f => .ok (transformRows f rows)
      | none => .ok rows
    else .ok rows

/-- The execution modes of the Connection capability
(`stream.ts:152-186`). -/
inductive ExecMode where
  | execute
  | executeWithoutTransform
  | executeValues
  | executeRaw
  | executeStream
deriving DecidableEq, Repr

/-- Dispatch of each execution mode onto the shared `run` primitive with
the flag values used at its call sites: `execute` → `(true, false)`,
`executeWithoutTransform` → `(false, false)`, `executeValues` →
`(true, true)`, `executeRaw` → `(true, false)`.  `executeStream` maps the
driver failure through the same `SqlError` construction
(`stream.ts:264`) and transforms emitted rows exactly when a result-name
transform is configured (`stream.ts:179-185`). -/
def runMode (transformResultNames : Option (String → String))
    (m : ExecMode) (outcome : DriverOutcome) : Except SqlError (List Row) :=
  match m with
  | .execute => run transformResultNames true false outcome
  | .executeWithoutTransform => run transformResultNames false false outcome
  | .executeValues => run transformResultNames true true outcome
  | .executeRaw => run transformResultNames true false outcome
  | .executeStream =>
    match outcome with
    | .error e => .error { message := e.message, cause := e }
    | .ok rows =>
      match transformResultNames with
      | some f => .ok (transformRows f rows)
      | none => .ok rows

/-! ### Pool lease discipline (`acquireConn` at `stream.ts:210-216`) -/

/-- The pool's bookkeeping counters: idle links available for lending and
links currently leased (spec §3, Pool). -/
structure PoolState where
  idle : Nat
  leased : Nat
deriving DecidableEq, Repr

/-- Observable lease events of one scoped use of a pooled connection. -/
inductive PoolEvent where
  | acquired
  | released
deriving DecidableEq, Repr

/-- How the body that borrowed the connection finished: normally, with a
typed failure, or interrupted by caller cancellation. -/
inductive BodyOutcome where
  | succeeded
  | failed (e : SqlError)
  | interrupted
deriving DecidableEq, Repr

/-- Modelled from the spec: `pool.getConnection()` — hand out an idle link
when one exists, otherwise lazily create a fresh link (spec §4.5). -/
def acquire (s : PoolState) : PoolState :=
  if 0 < s.idle then { idle := s.idle - 1, leased := s.leased + 1 }
  else { idle := 0, leased := s.leased + 1 }

/-- Embeds `conn => Effect.sync(() => conn.release())` (`stream.ts:215`):
the leased link goes back to the idle set. -/
def release (s : PoolState) : PoolState :=
  { idle := s.idle + 1, leased := s.leased - 1 }

/-- Modelled from the spec: the scoped-acquisition contract of
`Effect.acquireRelease` wrapping `acquireConn` (`stream.ts:210-216`, spec
§4.5) — the release runs exactly once per successful acquire, whether the
body succeeded, failed or was interrupted. -/
def useConn (s : PoolState) (body : BodyOutcome) :
    PoolState × List PoolEvent × BodyOutcome :=
  let afterAcquire := acquire s
  match body with
  | .succeeded => (release afterAcquire, [.acquired, .released], .succeeded)
  | .failed e => (release afterAcquire, [.acquired, .released], .failed e)
  | .interrupted => (release afterAcquire, [.acquired, .released], .interrupted)

/-- Sequential composition of scoped uses of the pool. -/
def runUses (s : PoolState) : List BodyOutcome → PoolState
  | [] => s
  | b :: bs => runUses (useConn s b).1 bs

/-! ### Streaming executor control protocol
(`queryStream` at `stream.ts:255-273`, `asyncPauseResume` semantics from
spec §4.6) -/

/-- Modelled from the spec: the streaming executor's control states (spec
§4.6): Running and Paused alternate before one of the terminal states. -/
inductive StreamMode where
  | running
  | paused
  | cancelled
  | ended
deriving DecidableEq, Repr

/-- The producer-side state: control mode, rows buffered while paused, and
how many destroy signals the underlying cursor has received. -/
structure StreamMachine where
  mode : StreamMode
  buffer : List Primitive
  destroyCount : Nat
deriving DecidableEq, Repr

/-- Events reaching the producer: a row arriving from the cursor, the
consumer's pause / resume / cancel signals, and cursor exhaustion. -/
inductive StreamEvent where
  | rowArrival (v : Primitive)
  | pauseSignal
  | resumeSignal
  | cancelSignal
  | endSignal
deriving DecidableEq, Repr

/-- Modelled from the spec: one step of the `asyncPauseResume` control
protocol as wired in `queryStream` (`stream.ts:260-272`, spec §4.6).
While running, a row is delivered to the consumer; while paused, it is
buffered, not delivered.  `pause`/`resume` toggle the cursor
(`query.pause()` / `query.resume()`); resuming flushes the buffered rows
in order.  Cancellation destroys the cursor exactly once
(`query.destroy()` on interrupt) and is a no-op on a machine that is
already cancelled or ended; no row is ever delivered from a cancelled or
ended machine. -/
def streamStep (s : StreamMachine) : StreamEvent → StreamMachine × List Primitive
  | .rowArrival v =>
    match s.mode with
    | .running => (s, [v])
    | .paused => ({ s with buffer := s.buffer ++ [v] }, [])
    | .cancelled => (s, [])
    | .ended => (s, [])
  | .pauseSignal =>
    match s.mode with
    | .running => ({ s with mode := .paused }, [])
    | _ => (s, [])
  | .resumeSignal =>
    match s.mode with
    | .paused => ({ s with mode := .running, buffer := [] }, s.buffer)
    | _ => (s, [])
  | .cancelSignal =>
    match s.mode with
    | .running => ({ s with mode := .cancelled, destroyCount := s.destroyCount + 1 }, [])
    | .paused => ({ s with mode := .cancelled, destroyCount := s.destroyCount + 1 }, [])
    | _ => (s, [])
  | .endSignal =>
    match s.mode with
    | .running => ({ s with mode := .ended }, [])
    | .paused => ({ s with mode := .ended }, [])
    | _ => (s, [])

/-- Runs the stream machine over a sequence of events, collecting the rows
delivered to the consumer in order. -/
def streamRun (s : StreamMachine) : List StreamEvent → StreamMachine × List Primitive
  | [] => (s, [])
  | e :: es =>
    let step := streamStep s e
    let rest := streamRun step.1 es
    (rest.1, step.2 ++ rest.2)

/-! ### Containment of an empty IN helper (for the `EmptyInError`
claims) -/

mutual

/-- Whether a fragment contains `Helper(in, [])` anywhere. -/
def hasEmptyIn : Fragment → Bool
  | .helperIn vs => vs.isEmpty
  | .fragmentList frs _ => hasEmptyInList frs
  | .nested s => hasEmptyInList s
  | _ => false

/-- Whether any fragment of a statement contains `Helper(in, [])`. -/
def hasEmptyInList : List Fragment → Bool
  | [] => false
  | f :: fs => hasEmptyIn f || hasEmptyInList fs

end

/-! ### Placeholder/parameter alignment lemmas -/

/-- A dialect whose array-literal / default-value renderers contribute no
parameters (the MySQL dialect of `makeCompiler` is such a dialect: both
renderers return `["", []]`). -/
def rendererParamFree (d : Dialect) : Prop :=
  (∀ vs, (d.onArrayLiteral vs).2 = []) ∧ (d.onDefault ()).2 = []

theorem sqlBind_ok {α β : Type} (a : α) (f : α → Except EmptyInError β) :
    sqlBind (.ok a) f = f a := rfl

theorem sqlBind_error {α β : Type} (e : EmptyInError) (f : α → Except EmptyInError β) :
    sqlBind (.error e) f = .error e := rfl

theorem placeholderIndices_append (ts1 ts2 : List Token) :
    placeholderIndices (ts1 ++ ts2) = placeholderIndices ts1 ++ placeholderIndices ts2 := by
  simp [placeholderIndices]

theorem placeholderIndices_text (s : String) (ts : List Token) :
    placeholderIndices (Token.text s :: ts) = placeholderIndices ts := by
  simp [placeholderIndices]

theorem placeholderIndices_ph (i : Nat) (ts : List Token) :
    placeholderIndices (Token.placeholder i :: ts) = i :: placeholderIndices ts := by
  simp [placeholderIndices]

theorem rangeSplit (s m n : Nat) :
    List.range' s (m + n) = List.range' s m ++ List.range' (s + m) n := by
  induction m generalizing s with
  | zero => simp
  | succ k ih =>
    have h1 : s + (k + 1) = (s + 1) + k := by omega
    simp [List.range'_succ, Nat.succ_add, ih, h1]

theorem placeholderIndices_inTail (k n : Nat) :
    placeholderIndices (inTail n k) = List.range' (n + 1) k := by
  induction k generalizing n with
  | zero => simp [inTail, placeholderIndices]
  | succ j ih =>
    rw [inTail, placeholderIndices_text, placeholderIndices_ph, ih, List.range'_succ]

theorem placeholderIndices_inGroup (k n : Nat) :
    placeholderIndices (inGroup n k) = List.range' (n + 1) k := by
  cases k with
  | zero => simp [inGroup, placeholderIndices]
  | succ j => rw [inGroup, placeholderIndices_ph, placeholderIndices_inTail, List.range'_succ]

mutual

theorem alignFragment (d : Dialect) (hd : rendererParamFree d) :
    ∀ (f : Fragment) (n : Nat) (ts : List Token) (ps : List Primitive),
      compileFragment d f n = .ok (ts, ps) →
      placeholderIndices ts = List.range' (n + 1) ps.length
  | .literal s, n, ts, ps, h => by
    simp only [compileFragment, Except.ok.injEq, Prod.mk.injEq] at h
    obtain ⟨rfl, rfl⟩ := h
    simp [placeholderIndices]
  | .parameter v, n, ts, ps, h => by
    simp only [compileFragment, Except.ok.injEq, Prod.mk.injEq] at h
    obtain ⟨rfl, rfl⟩ := h
    simp [placeholderIndices, List.range'_succ]
  | .identifier name, n, ts, ps, h => by
    simp only [compileFragment, Except.ok.injEq, Prod.mk.injEq] at h
    obtain ⟨rfl, rfl⟩ := h
    simp [placeholderIndices]
  | .fragmentList frs sep, n, ts, ps, h =>
    alignJoined d hd frs sep n ts ps (by simpa [compileFragment] using h)
  | .nested s, n, ts, ps, h =>
    alignFrags d hd s n ts ps (by simpa [compileFragment] using h)
  | .helperIn [], n, ts, ps, h => by
    simp [compileFragment] at h
  | .helperIn (v :: rest), n, ts, ps, h => by
    simp only [compileFragment, Except.ok.injEq, Prod.mk.injEq] at h
    obtain ⟨rfl, rfl⟩ := h
    rw [placeholderIndices_text, placeholderIndices_append, placeholderIndices_inGroup]
    simp [placeholderIndices]
  | .arrayLiteral vs, n, ts, ps, h => by
    simp only [compileFragment, Except.ok.injEq, Prod.mk.injEq] at h
    obtain ⟨rfl, rfl⟩ := h
    rw [hd.1 vs]
    simp [placeholderIndices]
  | .defaultValue, n, ts, ps, h => by
    simp only [compileFragment, Except.ok.injEq, Prod.mk.injEq] at h
    obtain ⟨rfl, rfl⟩ := h
    rw [hd.2]
    simp [placeholderIndices]

theorem alignFrags (d : Dialect) (hd : rendererParamFree d) :
    ∀ (s : List Fragment) (n : Nat) (ts : List Token) (ps : List Primitive),
      compileFrags d s n = .ok (ts, ps) →
      placeholderIndices ts = List.range' (n + 1) ps.length
  | [], n, ts, ps, h => by
    simp only [compileFrags, Except.ok.injEq, Prod.mk.injEq] at h
    obtain ⟨rfl, rfl⟩ := h
    simp [placeholderIndices]
  | f :: fs, n, ts, ps, h => by
    simp only [compileFrags] at h
    cases hf : compileFragment d f n with
    | error e => rw [hf, sqlBind_error] at h; simp at h
    | ok pr =>
      rw [hf, sqlBind_ok] at h
      cases hrest : compileFrags d fs (n + pr.2.length) with
      | error e => rw [hrest, sqlBind_error] at h; simp at h
      | ok pr2 =>
        rw [hrest, sqlBind_ok] at h
        simp only [Except.ok.injEq, Prod.mk.injEq] at h
        obtain ⟨rfl, rfl⟩ := h
        rw [placeholderIndices_append, alignFragment d hd f n pr.1 pr.2 (by rw [hf]),
          alignFrags d hd fs (n + pr.2.length) pr2.1 pr2.2 (by rw [hrest]), List.length_append,
          rangeSplit (n + 1) pr.2.length pr2.2.length]
        have he : n + 1 + pr.2.length = n + pr.2.length + 1 := by omega
        rw [he]

theorem alignJoined (d : Dialect) (hd : rendererParamFree d) :
    ∀ (frs : List Fragment) (sep : String) (n : Nat) (ts : List Token) (ps : List Primitive),
      compileJoined d frs sep n = .ok (ts, ps) →
      placeholderIndices ts = List.range' (n + 1) ps.length
  | [], sep, n, ts, ps, h => by
    simp only [compileJoined, Except.ok.injEq, Prod.mk.injEq] at h
    obtain ⟨rfl, rfl⟩ := h
    simp [placeholderIndices]
  | [f], sep, n, ts, ps, h =>
    alignFragment d hd f n ts ps (by simpa [compileJoined] using h)
  | f :: g :: gs, sep, n, ts, ps, h => by
    simp only [compileJoined] at h
    cases hf : compileFragment d f n with
    | error e => rw [hf, sqlBind_error] at h; simp at h
    | ok pr =>
      rw [hf, sqlBind_ok] at h
      cases hrest : compileJoined d (g :: gs) sep (n + pr.2.length) with
      | error e => rw [hrest, sqlBind_error] at h; simp at h
      | ok pr2 =>
        rw [hrest, sqlBind_ok] at h
        simp only [Except.ok.injEq, Prod.mk.injEq] at h
        obtain ⟨rfl, rfl⟩ := h
        rw [placeholderIndices_append, placeholderIndices_text,
          alignFragment d hd f n pr.1 pr.2 (by rw [hf]),
          alignJoined d hd (g :: gs) sep (n + pr.2.length) pr2.1 pr2.2 (by rw [hrest]),
          List.length_append, rangeSplit (n + 1) pr.2.length pr2.2.length]
        have he : n + 1 + pr.2.length = n + pr.2.length + 1 := by omega
        rw [he]

end



theorem renderTokens_nil (d : Dialect) : renderTokens d [] = "" := rfl

theorem renderTokens_cons (d : Dialect) (t : Token) (ts : List Token) :
    renderTokens d (t :: ts) = tokenText d t ++ renderTokens d ts := rfl

theorem renderTokens_append (d : Dialect) (ts1 ts2 : List Token) :
    renderTokens d (ts1 ++ ts2) = renderTokens d ts1 ++ renderTokens d ts2 := by
  induction ts1 with
  | nil => simp [renderTokens]
  | cons t ts ih =>
    simp only [List.cons_append, renderTokens_cons, ih, String.append_assoc]

theorem compileFrags_append (d : Dialect) (xs ys : List Fragment) (n : Nat) :
    compileFrags d (xs ++ ys) n =
      sqlBind (compileFrags d xs n) fun tp =>
        sqlBind (compileFrags d ys (n + tp.2.length)) fun tp2 =>
          .ok (tp.1 ++ tp2.1, tp.2 ++ tp2.2) := by
  induction xs generalizing n with
  | nil =>
    simp only [List.nil_append, compileFrags, sqlBind_ok, List.length_nil, Nat.add_zero]
    cases h : compileFrags d ys n with
    | error e => simp [sqlBind_error]
    | ok tp => simp [sqlBind_ok]
  | cons f fs ih =>
    simp only [List.cons_append, compileFrags, List.append_eq]
    cases hf : compileFragment d f n with
    | error e => simp [sqlBind_error]
    | ok tp =>
      rw [sqlBind_ok, sqlBind_ok, ih (n + tp.2.length)]
      cases hfs : compileFrags d fs (n + tp.2.length) with
      | error e => simp [sqlBind_error]
      | ok tp2 =>
        rw [sqlBind_ok, sqlBind_ok, sqlBind_ok]
        have he : n + (tp.2 ++ tp2.2).length = n + tp.2.length + tp2.2.length := by
          simp [List.length_append, Nat.add_assoc]
        rw [he]
        cases hys : compileFrags d ys (n + tp.2.length + tp2.2.length) with
        | error e => simp [sqlBind_error]
        | ok tp3 => simp [sqlBind_ok, List.append_assoc]

mutual

theorem emptyInFragment (d : Dialect) :
    ∀ (f : Fragment) (n : Nat), hasEmptyIn f = true →
      compileFragment d f n = .error .emptyIn
  | .literal s, n, h => by simp [hasEmptyIn] at h
  | .parameter v, n, h => by simp [hasEmptyIn] at h
  | .identifier name, n, h => by simp [hasEmptyIn] at h
  | .fragmentList frs sep, n, h =>
    emptyInJoined d frs sep n (by simpa [hasEmptyIn] using h)
  | .nested s, n, h =>
    emptyInFrags d s n (by simpa [hasEmptyIn] using h)
  | .helperIn [], n, h => by simp [compileFragment]
  | .helperIn (v :: rest), n, h => by simp [hasEmptyIn] at h
  | .arrayLiteral vs, n, h => by simp [hasEmptyIn] at h
  | .defaultValue, n, h => by simp [hasEmptyIn] at h

theorem emptyInFrags (d : Dialect) :
    ∀ (s : List Fragment) (n : Nat), hasEmptyInList s = true →
      compileFrags d s n = .error .emptyIn
  | [], n, h => by simp [hasEmptyInList] at h
  | f :: fs, n, h => by
    simp only [hasEmptyInList, Bool.or_eq_true] at h
    rcases h with h | h
    · simp only [compileFrags]
      rw [emptyInFragment d f n h, sqlBind_error]
    · simp only [compileFrags]
      cases hf : compileFragment d f n with
      | error e => rw [sqlBind_error]
      | ok tp =>
        rw [sqlBind_ok, emptyInFrags d fs (n + tp.2.length) h, sqlBind_error]

theorem emptyInJoined (d : Dialect) :
    ∀ (frs : List Fragment) (sep : String) (n : Nat), hasEmptyInList frs = true →
      compileJoined d frs sep n = .error .emptyIn
  | [], sep, n, h => by simp [hasEmptyInList] at h
  | [f], sep, n, h => by
    simp only [hasEmptyInList, Bool.or_eq_true] at h
    rcases h with h | h
    · simpa [compileJoined] using emptyInFragment d f n h
    · simp [hasEmptyInList] at h
  | f :: g :: gs, sep, n, h => by
    simp only [hasEmptyInList, Bool.or_eq_true] at h
    rcases h with h | h
    · simp only [compileJoined]
      rw [emptyInFragment d f n h, sqlBind_error]
    · simp only [compileJoined]
      cases hf : compileFragment d f n with
      | error e => rw [sqlBind_error]
      | ok tp =>
        rw [sqlBind_ok]
        have hgs : hasEmptyInList (g :: gs) = true := by
          simpa [hasEmptyInList] using h
        rw [emptyInJoined d (g :: gs) sep (n + tp.2.length) hgs, sqlBind_error]

end

mutual

theorem paramsFragment (d1 d2 : Dialect)
    (ha : d1.onArrayLiteral = d2.onArrayLiteral) (hdef : d1.onDefault = d2.onDefault) :
    ∀ (f : Fragment) (n : Nat),
      (compileFragment d1 f n).map Prod.snd = (compileFragment d2 f n).map Prod.snd
  | .literal s, n => by simp [compileFragment, Except.map]
  | .parameter v, n => by simp [compileFragment, Except.map]
  | .identifier name, n => by simp [compileFragment, Except.map]
  | .fragmentList frs sep, n => by
    simpa [compileFragment] using paramsJoined d1 d2 ha hdef frs sep n
  | .nested s, n => by
    simpa [compileFragment] using paramsFrags d1 d2 ha hdef s n
  | .helperIn [], n => by simp [compileFragment]
  | .helperIn (v :: rest), n => by simp [compileFragment, Except.map]
  | .arrayLiteral vs, n => by simp [compileFragment, Except.map, ha]
  | .defaultValue, n => by simp [compileFragment, Except.map, hdef]

theorem paramsFrags (d1 d2 : Dialect)
    (ha : d1.onArrayLiteral = d2.onArrayLiteral) (hdef : d1.onDefault = d2.onDefault) :
    ∀ (s : List Fragment) (n : Nat),
      (compileFrags d1 s n).map Prod.snd = (compileFrags d2 s n).map Prod.snd
  | [], n => by simp [compileFrags]
  | f :: fs, n => by
    simp only [compileFrags]
    have hf := paramsFragment d1 d2 ha hdef f n
    cases h1 : compileFragment d1 f n with
    | error e =>
      rw [h1] at hf
      cases h2 : compileFragment d2 f n with
      | error e2 => rw [sqlBind_error, sqlBind_error]
      | ok tp2 => rw [h2] at hf; simp [Except.map] at hf
    | ok tp1 =>
      rw [h1] at hf
      cases h2 : compileFragment d2 f n with
      | error e2 => rw [h2] at hf; simp [Except.map] at hf
      | ok tp2 =>
        rw [h2] at hf
        simp only [Except.map, Except.ok.injEq] at hf
        rw [sqlBind_ok, sqlBind_ok, ← hf]
        have hrec := paramsFrags d1 d2 ha hdef fs (n + tp1.2.length)
        cases hr1 : compileFrags d1 fs (n + tp1.2.length) with
        | error e =>
          rw [hr1] at hrec
          cases hr2 : compileFrags d2 fs (n + tp1.2.length) with
          | error e2 => rw [sqlBind_error, sqlBind_error]
          | ok tp3 => rw [hr2] at hrec; simp [Except.map] at hrec
        | ok tp3 =>
          rw [hr1] at hrec
          cases hr2 : compileFrags d2 fs (n + tp1.2.length) with
          | error e2 => rw [hr2] at hrec; simp [Except.map] at hrec
          | ok tp4 =>
            rw [hr2] at hrec
            simp only [Except.map, Except.ok.injEq] at hrec
            rw [sqlBind_ok, sqlBind_ok]
            simp [Except.map, hf, hrec]

theorem paramsJoined (d1 d2 : Dialect)
    (ha : d1.onArrayLiteral = d2.onArrayLiteral) (hdef : d1.onDefault = d2.onDefault) :
    ∀ (frs : List Fragment) (sep : String) (n : Nat),
      (compileJoined d1 frs sep n).map Prod.snd = (compileJoined d2 frs sep n).map Prod.snd
  | [], sep, n => by simp [compileJoined]
  | [f], sep, n => by
    simpa [compileJoined] using paramsFragment d1 d2 ha hdef f n
  | f :: g :: gs, sep, n => by
    simp only [compileJoined]
    have hf := paramsFragment d1 d2 ha hdef f n
    cases h1 : compileFragment d1 f n with
    | error e =>
      rw [h1] at hf
      cases h2 : compileFragment d2 f n with
      | error e2 => rw [sqlBind_error, sqlBind_error]
      | ok tp2 => rw [h2] at hf; simp [Except.map] at hf
    | ok tp1 =>
      rw [h1] at hf
      cases h2 : compileFragment d2 f n with
      | error e2 => rw [h2] at hf; simp [Except.map] at hf
      | ok tp2 =>
        rw [h2] at hf
        simp only [Except.map, Except.ok.injEq] at hf
        rw [sqlBind_ok, sqlBind_ok, ← hf]
        have hrec := paramsJoined d1 d2 ha hdef (g :: gs) sep (n + tp1.2.length)
        cases hr1 : compileJoined d1 (g :: gs) sep (n + tp1.2.length) with
        | error e =>
          rw [hr1] at hrec
          cases hr2 : compileJoined d2 (g :: gs) sep (n + tp1.2.length) with
          | error e2 => rw [sqlBind_error, sqlBind_error]
          | ok tp3 => rw [hr2] at hrec; simp [Except.map] at hrec
        | ok tp3 =>
          rw [hr1] at hrec
          cases hr2 : compileJoined d2 (g :: gs) sep (n + tp1.2.length) with
          | error e2 => rw [hr2] at hrec; simp [Except.map] at hrec
          | ok tp4 =>
            rw [hr2] at hrec
            simp only [Except.map, Except.ok.injEq] at hrec
            rw [sqlBind_ok, sqlBind_ok]
            simp [Except.map, hf, hrec]

end

theorem tokenText_mk_ph (t : Option (String → String)) (i : Nat) :
    tokenText (makeCompiler t) (Token.placeholder i) = "?" := rfl

theorem render_inTail (t : Option (String → String)) (k m : Nat) :
    "?" ++ renderTokens (makeCompiler t) (inTail m k)
      = joinSep ", " (List.replicate (k + 1) "?") := by
  induction k generalizing m with
  | zero => simp [inTail, renderTokens, joinSep, List.replicate]
  | succ j ih =>
    rw [inTail, renderTokens_cons, renderTokens_cons, tokenText_mk_ph]
    have hrep : List.replicate (j + 1 + 1) "?" = "?" :: List.replicate (j + 1) "?" :=
      List.replicate_succ "?" (j + 1)
    have hrep2 : List.replicate (j + 1) "?" = "?" :: List.replicate j "?" :=
      List.replicate_succ "?" j
    rw [hrep, hrep2, joinSep]
    rw [← hrep2, ← ih (m + 1)]
    simp only [tokenText, String.append_assoc]

theorem render_inGroup (t : Option (String → String)) (k m : Nat) :
    renderTokens (makeCompiler t) (inGroup m (k + 1))
      = joinSep ", " (List.replicate (k + 1) "?") := by
  rw [inGroup, renderTokens_cons, tokenText_mk_ph, render_inTail]

theorem compile_map_snd (d : Dialect) (s : List Fragment) :
    (compile d s).map Prod.snd = (compileFrags d s 0).map Prod.snd := by
  cases h : compileFrags d s 0 with
  | error e => simp [compile, h, sqlBind_error, Except.map]
  | ok tp => simp [compile, h, sqlBind_ok, Except.map]

theorem string_empty_append (s : String) : "" ++ s = s := rfl

theorem streamStep_terminal (s : StreamMachine) (e : StreamEvent)
    (h : s.mode = .cancelled ∨ s.mode = .ended) : streamStep s e = (s, []) := by
  rcases h with h | h <;> cases e <;> simp [streamStep, h]

theorem streamRun_terminal (s : StreamMachine) (es : List StreamEvent)
    (h : s.mode = .cancelled ∨ s.mode = .ended) : streamRun s es = (s, []) := by
  induction es with
  | nil => rfl
  | cons e es ih => simp [streamRun, streamStep_terminal s e h, ih]

theorem streamStep_cancel (s : StreamMachine) :
    ((streamStep s .cancelSignal).1.mode = .cancelled ∨ (streamStep s .cancelSignal).1.mode = .ended)
    ∧ (streamStep s .cancelSignal).2 = [] := by
  cases hm : s.mode <;> simp [streamStep, hm]

theorem streamStep_cancel_live (s : StreamMachine)
    (h : s.mode = .running ∨ s.mode = .paused) :
    (streamStep s .cancelSignal).1.destroyCount = s.destroyCount + 1
    ∧ (streamStep s .cancelSignal).1.mode = .cancelled := by
  rcases h with h | h <;> simp [streamStep, h]

theorem streamStep_noresume (s : StreamMachine) (e : StreamEvent)
    (hmode : s.mode ≠ .running) (he : e ≠ .resumeSignal) :
    (streamStep s e).2 = [] ∧ (streamStep s e).1.mode ≠ .running := by
  cases e <;> cases hm : s.mode <;>
    simp [streamStep, hm] <;> first
      | exact absurd hm hmode
      | exact absurd rfl he

theorem streamRun_noresume (s : StreamMachine) (es : List StreamEvent)
    (hmode : s.mode ≠ .running) (hres : StreamEvent.resumeSignal ∉ es) :
    (streamRun s es).2 = [] := by
  induction es generalizing s with
  | nil => rfl
  | cons e es ih =>
    have he : e ≠ StreamEvent.resumeSignal := by
      intro hcon
      exact hres (hcon ▸ List.mem_cons_self e es)
    obtain ⟨h1, h2⟩ := streamStep_noresume s e hmode he
    have hres2 : StreamEvent.resumeSignal ∉ es := fun hm => hres (List.mem_cons_of_mem e hm)
    simp [streamRun, h1, ih (streamStep s e).1 h2 hres2]

theorem useConn_events (s : PoolState) (b : BodyOutcome) :
    (useConn s b).2.1 = [.acquired, .released] ∧ (useConn s b).2.2 = b := by
  cases b <;> exact ⟨rfl, rfl⟩

theorem useConn_counts (s : PoolState) (b : BodyOutcome) (h : 0 < s.idle) :
    (useConn s b).1.idle = s.idle ∧ (useConn s b).1.leased = s.leased := by
  cases b <;> simp [useConn, acquire, release, h] <;> omega

theorem runUses_balance (s : PoolState) (bs : List BodyOutcome) (h : 0 < s.idle) :
    (runUses s bs).idle = s.idle ∧ (runUses s bs).leased = s.leased := by
  induction bs generalizing s with
  | nil => exact ⟨rfl, rfl⟩
  | cons b bs ih =>
    obtain ⟨h1, h2⟩ := useConn_counts s b h
    have hrec := ih (useConn s b).1 (by rw [h1]; exact h)
    rw [runUses]
    exact ⟨hrec.1.trans h1, hrec.2.trans h2⟩

theorem neutral_insert (d : Dialect) (f : Fragment)
    (hf : ∀ n, compileFragment d f n = .ok ([Token.text ""], []))
    (pre post : List Fragment) :
    compile d (pre ++ f :: post) = compile d (pre ++ post) := by
  rw [compile, compile, compileFrags_append d pre (f :: post) 0,
    compileFrags_append d pre post 0]
  cases hp : compileFrags d pre 0 with
  | error e => rw [sqlBind_error, sqlBind_error, sqlBind_error, sqlBind_error]
  | ok tp =>
    rw [sqlBind_ok, sqlBind_ok]
    rw [compileFrags, hf (0 + tp.2.length), sqlBind_ok]
    simp only [List.length_nil, Nat.add_zero]
    cases hpost : compileFrags d post (0 + tp.2.length) with
    | error e => rw [sqlBind_error, sqlBind_error, sqlBind_error]
    | ok tpb =>
      rw [sqlBind_ok, sqlBind_ok, sqlBind_ok, sqlBind_ok]
      rw [renderTokens_append, renderTokens_append, renderTokens_cons]
      simp [tokenText, string_empty_append, sqlBind_ok, renderTokens_append,
        renderTokens_nil]

/-! ### The claims -/

/-- C1: for every non-empty value list, compiling `Helper(in, [v1..vN])`
under the MySQL dialect (`makeCompiler`, `?` placeholders) yields exactly
one parenthesized, comma-separated group of N `?` placeholders with the
values appended to the parameter list in order; in particular,
`SELECT * FROM people WHERE id IN (1,2,3)` compiles to
`SELECT * FROM people WHERE id IN (?, ?, ?)` with params `[1,2,3]`. -/
theorem claim_C1 (vs : List Primitive) (h : vs ≠ []) (n : Nat) :
    compileFragment (makeCompiler none) (.helperIn vs) n
      = .ok (Token.text "(" :: (inGroup n vs.length ++ [Token.text ")"]), vs)
    ∧ renderTokens (makeCompiler none) (Token.text "(" :: (inGroup n vs.length ++ [Token.text ")"]))
      = "(" ++ joinSep ", " (List.replicate vs.length "?") ++ ")"
    ∧ (placeholderIndices (Token.text "(" :: (inGroup n vs.length ++ [Token.text ")"]))).length
      = vs.length
    ∧ compile (makeCompiler none)
        [.literal "SELECT * FROM people WHERE id IN ",
          .helperIn [.number 1, .number 2, .number 3]]
      = .ok ("SELECT * FROM people WHERE id IN (?, ?, ?)",
          [.number 1, .number 2, .number 3]) := by
  obtain ⟨v, rest, rfl⟩ : ∃ v rest, vs = v :: rest := by
    cases vs with
    | nil => exact absurd rfl h
    | cons v rest => exact ⟨v, rest, rfl⟩
  refine ⟨rfl, ?_, ?_, by rfl⟩
  · rw [renderTokens_cons, renderTokens_append, List.length_cons,
      render_inGroup none rest.length n]
    have hr : renderTokens (makeCompiler none) [Token.text ")"] = ")" := rfl
    have ht : tokenText (makeCompiler none) (Token.text "(") = "(" := rfl
    rw [hr, ht, String.append_assoc]
  · rw [placeholderIndices_text, placeholderIndices_append, List.length_cons,
      placeholderIndices_inGroup]
    have hz : placeholderIndices [Token.text ")"] = [] := rfl
    rw [hz, List.append_nil, List.length_range']

/-- Witness for C1 at the value list `[1, 2, 3]`. -/
theorem claim_C1_witness :
    compile (makeCompiler none)
      [.literal "SELECT * FROM people WHERE id IN ",
        .helperIn [.number 1, .number 2, .number 3]]
    = .ok ("SELECT * FROM people WHERE id IN (?, ?, ?)",
        [.number 1, .number 2, .number 3]) :=
  (claim_C1 [.number 1, .number 2, .number 3] (by decide) 0).2.2.2

/-- C2: under any dialect whose array-literal / default-value renderers
contribute no parameters (the MySQL dialect is one), every successful
compilation has as many placeholders as parameters, the i-th placeholder
(left to right) carries position i — the position whose value the driver
binds to `params[i]` — and a fragment contributing zero placeholders
contributes zero parameters, leaving the placeholder counter unchanged. -/
theorem claim_C2 (d : Dialect) (hd : rendererParamFree d)
    (s : List Fragment) (ts : List Token) (ps : List Primitive)
    (h : compileFrags d s 0 = .ok (ts, ps)) :
    (placeholderIndices ts).length = ps.length
    ∧ placeholderIndices ts = List.range' 1 ps.length
    ∧ (∀ (f : Fragment) (n : Nat) (ts2 : List Token) (ps2 : List Primitive),
        compileFragment d f n = .ok (ts2, ps2) →
        placeholderIndices ts2 = List.range' (n + 1) ps2.length)
    ∧ (∀ (f : Fragment) (n : Nat) (ts2 : List Token) (ps2 : List Primitive),
        compileFragment d f n = .ok (ts2, ps2) →
        placeholderIndices ts2 = [] → n + ps2.length = n) := by
  have hmain := alignFrags d hd s 0 ts ps h
  refine ⟨?_, by simpa using hmain, fun f n ts2 ps2 hf => alignFragment d hd f n ts2 ps2 hf, ?_⟩
  · rw [hmain, List.length_range']
  · intro f n ts2 ps2 hf hzero
    have := alignFragment d hd f n ts2 ps2 hf
    rw [hzero] at this
    have hlen := congrArg List.length this
    simp only [List.length_nil, List.length_range'] at hlen
    omega

/-- Witness for C2: the MySQL dialect on a two-parameter statement. -/
theorem claim_C2_witness :
    (placeholderIndices
        [Token.text "SELECT ", Token.placeholder 1, Token.text "(",
          Token.placeholder 2, Token.text ")"]).length
      = ([Primitive.number 5, Primitive.number 7] : List Primitive).length
    ∧ placeholderIndices
        [Token.text "SELECT ", Token.placeholder 1, Token.text "(",
          Token.placeholder 2, Token.text ")"]
      = List.range' 1 ([Primitive.number 5, Primitive.number 7] : List Primitive).length := by
  have h := claim_C2 (makeCompiler none) ⟨fun vs => rfl, rfl⟩
    [.literal "SELECT ", .parameter (.number 5), .helperIn [.number 7]]
    [Token.text "SELECT ", Token.placeholder 1, Token.text "(",
      Token.placeholder 2, Token.text ")"]
    [Primitive.number 5, Primitive.number 7] (by rfl)
  exact ⟨h.1, h.2.1⟩

/-- C3: compiling a statement that contains `Helper(in, [])` anywhere
fails synchronously with `EmptyInError`; it is never rendered as `()` or
any other successful text. -/
theorem claim_C3 (d : Dialect) (s : List Fragment) (h : hasEmptyInList s = true) :
    compile d s = .error .emptyIn
    ∧ ∀ (text : String) (ps : List Primitive), compile d s ≠ .ok (text, ps) := by
  have hfrags := emptyInFrags d s 0 h
  constructor
  · rw [compile, hfrags, sqlBind_error]
  · intro text ps hcon
    rw [compile, hfrags, sqlBind_error] at hcon
    exact Except.noConfusion hcon

/-- Witness for C3 at the statement `[Helper(in, [])]`. -/
theorem claim_C3_witness :
    compile (makeCompiler none) [.helperIn []] = .error .emptyIn :=
  (claim_C3 (makeCompiler none) [.helperIn []] (by rfl)).1

/-- C4: with the camel-to-snake / snake-to-camel pair configured,
`userId` becomes `user_id` and is escaped in the compiled text, the
query-name transform never changes the compiled parameter list, a result
row keyed `user_id` is delivered keyed `userId`, and the result-name
transform never changes row values. -/
theorem claim_C4 :
    camelToSnake "userId" = "user_id"
    ∧ (∀ n, compileFragment (makeCompiler (some camelToSnake)) (.identifier "userId") n
        = .ok ([Token.text "\x60user_id\x60"], []))
    ∧ (∀ s, (compile (makeCompiler (some camelToSnake)) s).map Prod.snd
        = (compile (makeCompiler none) s).map Prod.snd)
    ∧ snakeToCamel "user_id" = "userId"
    ∧ (∀ v, transformRow snakeToCamel [("user_id", v)] = [("userId", v)])
    ∧ (∀ (f : String → String) (r : Row), (transformRow f r).map Prod.snd = r.map Prod.snd) := by
  refine ⟨rfl, fun n => rfl, fun s => ?_, rfl, fun v => rfl, fun f r => ?_⟩
  · rw [compile_map_snd, compile_map_snd]
    exact paramsFrags (makeCompiler (some camelToSnake)) (makeCompiler none) rfl rfl s 0
  · simp [transformRow]

/-- C5: in every execution mode, a driver-level error is re-signaled as a
typed `SqlError` (the spec taxonomy's `QueryError`) carrying the driver
message and the original error as cause — never a raw exception, never
silently dropped. -/
theorem claim_C5 (cfg : Option (String → String)) (m : ExecMode) (e : DriverError) :
    runMode cfg m (.error e) = .error { message := e.message, cause := e } := by
  cases m <;> cases cfg <;> simp [runMode, run]

/-- C6: with at least one idle link available, every scoped use of the
pool performs exactly one acquire and one matching release — also when
the body fails or is interrupted — and any sequence of such uses returns
the idle and leased counters to their initial values. -/
theorem claim_C6 (s : PoolState) (bs : List BodyOutcome) (h : 0 < s.idle) :
    (runUses s bs).idle = s.idle
    ∧ (runUses s bs).leased = s.leased
    ∧ ∀ b, (useConn s b).2.1 = [.acquired, .released] := by
  obtain ⟨h1, h2⟩ := runUses_balance s bs h
  exact ⟨h1, h2, fun b => (useConn_events s b).1⟩

/-- Witness for C6: a warm one-link pool across a succeeding, a failing
and an interrupted use. -/
theorem claim_C6_witness :
    (runUses ⟨1, 0⟩
        [.succeeded, .failed ⟨"boom", ⟨"boom", 0⟩⟩, .interrupted]).idle = 1
    ∧ (runUses ⟨1, 0⟩
        [.succeeded, .failed ⟨"boom", ⟨"boom", 0⟩⟩, .interrupted]).leased = 0
    ∧ (useConn ⟨1, 0⟩ .interrupted).2.1 = [.acquired, .released] := by
  have h := claim_C6 ⟨1, 0⟩
    [.succeeded, .failed ⟨"boom", ⟨"boom", 0⟩⟩, .interrupted] (by decide)
  exact ⟨h.1, h.2.1, h.2.2 .interrupted⟩

/-- C7: cancellation silences the stream (no row event is ever delivered
at or after the cancel signal), a cancel on a live machine delivers
exactly one destroy signal to the cursor (later events, including further
cancels, add none), cancel is idempotent, and after a pause no row event
is delivered until a resume arrives. -/
theorem claim_C7 :
    (∀ (s : StreamMachine) (es : List StreamEvent),
      (streamRun s (StreamEvent.cancelSignal :: es)).2 = [])
    ∧ (∀ (s : StreamMachine) (es : List StreamEvent),
        s.mode = .running ∨ s.mode = .paused →
        (streamRun s (StreamEvent.cancelSignal :: es)).1.destroyCount = s.destroyCount + 1)
    ∧ (∀ s : StreamMachine,
        streamRun s [StreamEvent.cancelSignal, StreamEvent.cancelSignal]
          = streamRun s [StreamEvent.cancelSignal])
    ∧ (∀ (s : StreamMachine) (es : List StreamEvent),
        s.mode = .running → StreamEvent.resumeSignal ∉ es →
        (streamRun (streamStep s .pauseSignal).1 es).2 = []) := by
  have habs : ∀ (s1 : StreamMachine) (es : List StreamEvent),
      (s1.mode = .cancelled ∨ s1.mode = .ended) → streamRun s1 es = (s1, []) :=
    fun s1 es h => streamRun_terminal s1 es h
  refine ⟨fun s es => ?_, fun s es h => ?_, fun s => ?_, fun s es hrun hres => ?_⟩
  · obtain ⟨hmode, hout⟩ := streamStep_cancel s
    simp [streamRun, hout, habs (streamStep s .cancelSignal).1 es hmode]
  · obtain ⟨hd, hmode⟩ := streamStep_cancel_live s h
    have := habs (streamStep s .cancelSignal).1 es (Or.inl hmode)
    simp [streamRun, this, hd]
  · obtain ⟨hmode, hout⟩ := streamStep_cancel s
    have := streamStep_terminal (streamStep s .cancelSignal).1 .cancelSignal hmode
    simp [streamRun, this]
  · have hpause : (streamStep s .pauseSignal).1.mode = .paused := by
      simp [streamStep, hrun]
    exact streamRun_noresume (streamStep s .pauseSignal).1 es
      (by rw [hpause]; intro hcon; exact StreamMode.noConfusion hcon) hres

/-- Witness for C7: a running machine over concrete event traces. -/
theorem claim_C7_witness :
    (streamRun ⟨.running, [], 0⟩
        [StreamEvent.cancelSignal, StreamEvent.rowArrival (.number 1)]).2 = []
    ∧ (streamRun ⟨.running, [], 0⟩
        [StreamEvent.cancelSignal, StreamEvent.cancelSignal]).1.destroyCount = 0 + 1
    ∧ streamRun ⟨.running, [], 0⟩ [StreamEvent.cancelSignal, StreamEvent.cancelSignal]
        = streamRun ⟨.running, [], 0⟩ [StreamEvent.cancelSignal]
    ∧ (streamRun (streamStep ⟨.running, [], 0⟩ .pauseSignal).1
        [StreamEvent.rowArrival (.number 2), StreamEvent.rowArrival (.number 3)]).2 = [] :=
  ⟨claim_C7.1 ⟨.running, [], 0⟩ [StreamEvent.rowArrival (.number 1)],
    claim_C7.2.1 ⟨.running, [], 0⟩ [StreamEvent.cancelSignal] (Or.inl rfl),
    claim_C7.2.2.1 ⟨.running, [], 0⟩,
    claim_C7.2.2.2 ⟨.running, [], 0⟩
      [StreamEvent.rowArrival (.number 2), StreamEvent.rowArrival (.number 3)]
      rfl (by decide)⟩

/-- C8: `compile` is a pure function of the Statement and the dialect
configuration: repeated compilation of the same inputs yields identical
text and an identical ordered parameter sequence. -/
theorem claim_C8 (d : Dialect) (s : List Fragment) :
    compile d s = compile d s
    ∧ ∀ (t1 t2 : String) (p1 p2 : List Primitive),
        compile d s = .ok (t1, p1) → compile d s = .ok (t2, p2) →
        t1 = t2 ∧ p1 = p2 := by
  refine ⟨rfl, fun t1 t2 p1 p2 h1 h2 => ?_⟩
  rw [h1] at h2
  obtain ⟨h3, h4⟩ := Prod.mk.injEq .. ▸ Except.ok.inj h2
  exact ⟨h3, h4⟩

/-- C9: array-mode execution (`executeValues`, which sets `rowsAsArray`)
delivers the driver rows untouched even when a result-name transform is
configured, while plain `execute` under the same configuration does
transform them. -/
theorem claim_C9 (cfg : Option (String → String)) (rows : List Row) :
    runMode cfg .executeValues (.ok rows) = .ok rows
    ∧ runMode (some snakeToCamel) .execute (.ok rows)
        = .ok (transformRows snakeToCamel rows) := by
  constructor
  · cases cfg <;> simp [runMode, run]
  · simp [runMode, run]

/-- C10: the MySQL dialect's array-literal and default-value renderers
both return the empty string with no parameters, so an array-literal or
default-value fragment contributes no text and no parameters: deleting it
from any statement leaves the compiled output unchanged. -/
theorem claim_C10 (t : Option (String → String)) (vs : List Primitive) (n : Nat)
    (pre post : List Fragment) :
    compileFragment (makeCompiler t) (.arrayLiteral vs) n = .ok ([Token.text ""], [])
    ∧ compileFragment (makeCompiler t) .defaultValue n = .ok ([Token.text ""], [])
    ∧ compile (makeCompiler t) (pre ++ .arrayLiteral vs :: post)
        = compile (makeCompiler t) (pre ++ post)
    ∧ compile (makeCompiler t) (pre ++ .defaultValue :: post)
        = compile (makeCompiler t) (pre ++ post) :=
  ⟨rfl, rfl,
    neutral_insert (makeCompiler t) (.arrayLiteral vs) (fun _ => rfl) pre post,
    neutral_insert (makeCompiler t) .defaultValue (fun _ => rfl) pre post⟩

/-- Witness for C8: repeated compilation of a one-parameter statement. -/
theorem claim_C8_witness :
    compile (makeCompiler none) [.parameter (.number 4)]
      = compile (makeCompiler none) [.parameter (.number 4)]
    ∧ ("?" : String) = "?"
    ∧ ([Primitive.number 4] : List Primitive) = [.number 4] :=
  have h := claim_C8 (makeCompiler none) [.parameter (.number 4)]
  have h2 := h.2 "?" "?" [.number 4] [.number 4] (by rfl) (by rfl)
  ⟨h.1, h2.1, h2.2⟩

end SqlFx
